import Mathlib

set_option maxHeartbeats 2000000
set_option maxRecDepth 4000

/-!
Shallow embedding of the opencode-session aggregation and cascading-deletion
engine (`src/utils.ts` and the deletion module).  The filesystem is modelled
as an explicit state `FS` with one component per directory namespace used by
the program (session dirs keyed by projectID, message dirs keyed by sessionID,
part dirs keyed by messageID, per-session diff/todo files, project record
files, snapshot dirs, the frecency log and the log directory).  JSON parse
results are stored alongside each file (`Option _`, `none` = parse failure),
mirroring `readJsonFile` which maps both missing files and malformed JSON to
`null`.  Thrown I/O errors on `rm` (e.g. permission errors) are modelled by an
oracle `rmFails`; `rm` with `force: true` never throws on an absent target, so
the oracle only applies to targets that exist.
-/

namespace OCS

/-- `{created, updated}` timestamps (epoch milliseconds) of a session or
project record.  The source declares `SessionTime` and `ProjectTime` with
identical shape; both are modelled by this structure. -/
structure STime where
  created : Nat
  updated : Nat
deriving DecidableEq

/-- A session record, as parsed from a session JSON file.  Only the fields the
modelled functions consult are kept (`slug`, `version`, `parentID`, `title`,
`summary` are carried through unchanged by the source and never read). -/
structure Session where
  id : String
  projectID : String
  directory : String
  time : STime
deriving DecidableEq

/-- `SessionInfo = Session + {sizeBytes, messageCount, isOrphan, projectWorktree}`,
the enriched record produced by `loadSessions`. -/
structure SessionInfo extends Session where
  sizeBytes : Nat
  messageCount : Nat
  isOrphan : Bool
  projectWorktree : String
deriving DecidableEq

/-- A message record.  Of all its fields only `id` is ever consulted by the
modelled functions (the part-directory join and deletion). -/
structure Message where
  id : String
deriving DecidableEq

/-- A project record, as parsed from `PROJECT_DIR/<file>.json`.  `vcs` and
`sandboxes` are carried through unchanged by the source and never read. -/
structure Project where
  id : String
  worktree : String
  time : STime
deriving DecidableEq

/-- `ProjectInfo = Project + {sessionCount, totalSizeBytes, isOrphan, sessions}`,
the enriched record produced by `loadProjectInfos`. -/
structure ProjectInfo extends Project where
  sessionCount : Nat
  totalSizeBytes : Nat
  isOrphan : Bool
  sessions : List SessionInfo
deriving DecidableEq

/-- One line of the frecency log: `{path, frequency, lastOpen}`. -/
structure FrecencyEntry where
  path : String
  frequency : Nat
  lastOpen : Nat
deriving DecidableEq

/-- A loaded log file.  `path` is `join(LOG_DIR, filename)` in the source;
since `LOG_DIR` is a fixed constant the join is a bijection on filenames and
the model stores the filename itself as the path.  `date` is the numeric
timestamp derived from the filename (or the clock value `now`). -/
structure LogFile where
  path : String
  filename : String
  date : Nat
  sizeBytes : Nat
deriving DecidableEq

/-- An entry of a message directory: a directory entry name, its recursive
byte size, and the result of JSON-parsing it as a `Message` (`none` both for
malformed JSON and for subdirectory entries, which `readJsonFile` also fails
on; for size purposes a subdirectory entry's `size` is its recursive size,
matching `getDirSize`). -/
structure MsgFile where
  name : String
  size : Nat
  msg : Option Message
deriving DecidableEq

/-- An entry of a per-project session directory: file name, byte size, and
JSON parse result. -/
structure SessFile where
  name : String
  size : Nat
  sess : Option Session
deriving DecidableEq

/-- An entry of the project directory: file name and JSON parse result. -/
structure ProjFile where
  name : String
  content : Option Project
deriving DecidableEq

/-- One raw line of the frecency log (as produced by `content.trim().split("\n")`)
together with the result of `JSON.parse` on it (`none` = parse failure; the
empty line always fails to parse). -/
structure FrecLine where
  raw : String
  entry : Option FrecencyEntry
deriving DecidableEq

/-- An entry of the log directory: file name and byte size. -/
structure LogFsFile where
  name : String
  size : Nat
deriving DecidableEq

/-- The filesystem paths the deletion code removes, in symbolic form.  Each
constructor corresponds to one `join(<ROOT>, ...)` pattern in the source; the
roots are distinct configured directories, so the symbolic form is injective. -/
inductive FsPath where
  | messageDir (sessionID : String)
  | partDir (messageID : String)
  | diffFile (sessionID : String)
  | todoFile (sessionID : String)
  | sessionFile (projectID : String) (sessionID : String)
  | sessionProjectDir (projectID : String)
  | projectFile (projectID : String)
  | snapshotDir (projectID : String)
  | logFile (name : String)
  | frecencyFile
deriving DecidableEq

/-- The filesystem state.  `none` models a missing file/directory.  `rmFails`
is an oracle for thrown I/O errors on `rm` of an existing target (permission,
device error); `rm` with `force: true` succeeds trivially on absent targets.
`pathExists` models `existsSync` on arbitrary paths (session `directory` /
project `worktree`). -/
structure FS where
  sessionDirs : List (String × List SessFile)
  messageDirs : String → Option (List MsgFile)
  partDirs : String → Option Nat
  diffFiles : String → Option Nat
  todoFiles : String → Option Nat
  projectFiles : List ProjFile
  snapshotDirs : String → Bool
  pathExists : String → Bool
  frecency : Option (List FrecLine)
  logFiles : List LogFsFile
  rmFails : FsPath → Bool

/-- JS `String.prototype.endsWith`. -/
def jsEndsWith (s suffixStr : String) : Bool :=
  suffixStr.data.isSuffixOf s.data

/-- JS `String.prototype.startsWith`. -/
def jsStartsWith (s prefixStr : String) : Bool :=
  prefixStr.data.isPrefixOf s.data

/-- `getFileSize`: size of a file, `0` if absent. -/
def fileSize0 (o : Option Nat) : Nat := o.getD 0

/-- `getDirSize` applied to a part directory whose recursive size is stored
directly: `0` for a missing/unreadable directory. -/
def dirSize0 (o : Option Nat) : Nat := o.getD 0

/-- The entries of `MESSAGE_DIR/<sessionID>` (`readdir`, empty on a missing
directory). -/
def messageFilesOf (fs : FS) (sessionID : String) : List MsgFile :=
  match fs.messageDirs sessionID with
  | none => []
  | some files => files

/-- `getDirSize(join(MESSAGE_DIR, sessionID))`: total recursive size of the
message directory, `0` if missing. -/
def messageDirSize (fs : FS) (sessionID : String) : Nat :=
  ((messageFilesOf fs sessionID).map (fun f => f.size)).sum

/-- The message ids found in a session's message directory: `.json` entries
that parse as messages, in directory order (the loop shared by
`getSessionSize` and `deleteSession`). -/
def messageIDs (fs : FS) (sessionID : String) : List String :=
  ((((messageFilesOf fs sessionID).filter
      (fun f => jsEndsWith f.name ".json")).filterMap (fun f => f.msg)).map
    (fun m => m.id))

/-- The part-directory contribution of `getSessionSize`: the sum of
`getDirSize(join(PART_DIR, m.id))` over the message ids found in the session's
message directory. -/
def partsTotal (fs : FS) (sessionID : String) : Nat :=
  ((messageIDs fs sessionID).map (fun mid => dirSize0 (fs.partDirs mid))).sum

/-- `getSessionMessageCount`: the number of `.json` entries of the message
directory (`0` if missing). -/
def getSessionMessageCount (fs : FS) (sessionID : String) : Nat :=
  ((messageFilesOf fs sessionID).filter (fun f => jsEndsWith f.name ".json")).length

/-- `getSessionSize`: message-directory size + part-directory sizes + diff
file size + todo file size (each contributing `0` when missing). -/
def getSessionSize (fs : FS) (sessionID : String) : Nat :=
  messageDirSize fs sessionID + partsTotal fs sessionID
    + fileSize0 (fs.diffFiles sessionID) + fileSize0 (fs.todoFiles sessionID)

/-- Insert `x` into a list sorted descending by `key`, after any element of
equal key (so that the left-to-right fold below is a stable descending sort,
the unique behaviour of JS `Array.prototype.sort` with comparator
`(a, b) => key(b) - key(a)`). -/
def insertDesc {α : Type} (key : α → Nat) (x : α) : List α → List α
  | [] => [x]
  | y :: ys => if key y < key x then x :: y :: ys else y :: insertDesc key x ys

/-- Stable descending sort by `key` (insertion sort). -/
def sortDesc {α : Type} (key : α → Nat) (l : List α) : List α :=
  l.foldl (fun acc x => insertDesc key x acc) []

/-- The `SessionInfo` assembled by `loadSessions` for one session record file
of size `fsize` parsing to `s`, under the already-resolved project worktree. -/
def mkSessionInfo (fs : FS) (worktree : String) (fsize : Nat) (s : Session) :
    SessionInfo :=
  { toSession := s
    sizeBytes := fsize + getSessionSize fs s.id
    messageCount := getSessionMessageCount fs s.id
    isOrphan := !(fs.pathExists s.directory)
    projectWorktree := worktree }

/-- `Map.get` on the insertion-ordered project map. -/
def mapGet (m : List (String × Project)) (k : String) : Option Project :=
  (m.find? (fun kv => kv.1 == k)).map (fun kv => kv.2)

/-- `Map.set` on the insertion-ordered project map: replace in place if the
key is present, else append. -/
def mapSet (m : List (String × Project)) (k : String) (v : Project) :
    List (String × Project) :=
  if m.any (fun kv => kv.1 == k) then
    m.map (fun kv => if kv.1 == k then (kv.1, v) else kv)
  else m ++ [(k, v)]

/-- `loadProjects`: read every `.json` file of `PROJECT_DIR`, skip parse
failures, key the map by the parsed record's `id`. -/
def loadProjects (fs : FS) : List (String × Project) :=
  fs.projectFiles.foldl
    (fun m pf =>
      if jsEndsWith pf.name ".json" then
        match pf.content with
        | some p => mapSet m p.id p
        | none => m
      else m)
    []

/-- `loadSessions`: walk `SESSION_DIR/<projectID>/<file>.json`, build a
`SessionInfo` for every session file that parses, sort by `time.updated`
descending.  (Non-directory entries of `SESSION_DIR` are skipped by the
source's `isDirectory()` check and are not modelled.) -/
def loadSessions (fs : FS) (projects : List (String × Project)) :
    List SessionInfo :=
  sortDesc (fun si => si.time.updated)
    (fs.sessionDirs.flatMap (fun pd =>
      let worktree := match mapGet projects pd.1 with
        | some p => p.worktree
        | none => "/"
      pd.2.filterMap (fun f =>
        if jsEndsWith f.name ".json" then
          (f.sess).map (mkSessionInfo fs worktree f.size)
        else none)))

/-- Group sessions by `projectID` into an insertion-ordered map (the
`sessionsByProject` loop of `loadProjectInfos`): a session joins its existing
group, or opens a new group appended at the end. -/
def addToGroup (m : List (String × List SessionInfo)) (s : SessionInfo) :
    List (String × List SessionInfo) :=
  if m.any (fun kv => kv.1 == s.projectID) then
    m.map (fun kv => if kv.1 == s.projectID then (kv.1, kv.2 ++ [s]) else kv)
  else m ++ [(s.projectID, [s])]

/-- The `sessionsByProject` map of `loadProjectInfos`. -/
def groupByProject (sessions : List SessionInfo) :
    List (String × List SessionInfo) :=
  sessions.foldl addToGroup []

/-- `projectSessions.reduce((sum, s) => sum + s.sizeBytes, 0)`. -/
def sumSizes (ss : List SessionInfo) : Nat :=
  ss.foldl (fun sum s => sum + s.sizeBytes) 0

/-- `Math.min(...projectSessions.map((s) => s.time.created))`; only applied to
non-empty groups (the `[]` case is unreachable: `groupByProject` never builds
an empty group). -/
def minCreated (ss : List SessionInfo) : Nat :=
  match ss with
  | [] => 0
  | s :: rest => rest.foldl (fun acc x => Nat.min acc x.time.created) s.time.created

/-- `Math.max(...projectSessions.map((s) => s.time.updated))`; only applied to
non-empty groups. -/
def maxUpdated (ss : List SessionInfo) : Nat :=
  match ss with
  | [] => 0
  | s :: rest => rest.foldl (fun acc x => Nat.max acc x.time.updated) s.time.updated

/-- The `ProjectInfo` built by `loadProjectInfos` for one group of sessions:
a synthesized placeholder when the group's project id has no record in the
map, otherwise the real record enriched with the group. -/
def mkProjectInfoWith (fs : FS) (projects : List (String × Project))
    (kv : String × List SessionInfo) : ProjectInfo :=
  match mapGet projects kv.1 with
  | none =>
    { id := kv.1
      worktree := ((kv.2.head?).map (fun s => s.directory)).getD "/unknown"
      time := { created := minCreated kv.2, updated := maxUpdated kv.2 }
      sessionCount := kv.2.length
      totalSizeBytes := sumSizes kv.2
      isOrphan := true
      sessions := kv.2 }
  | some p =>
    { toProject := p
      sessionCount := kv.2.length
      totalSizeBytes := sumSizes kv.2
      isOrphan := !(fs.pathExists p.worktree)
      sessions := kv.2 }

/-- The `ProjectInfo` built for a project record with no sessions. -/
def mkProjectInfoZero (fs : FS) (p : Project) : ProjectInfo :=
  { toProject := p
    sessionCount := 0
    totalSizeBytes := 0
    isOrphan := !(fs.pathExists p.worktree)
    sessions := [] }

/-- `loadProjectInfos`: one `ProjectInfo` per session group (real or
placeholder), then one per session-less project record, sorted by
`time.updated` descending. -/
def loadProjectInfos (fs : FS) (sessions : List SessionInfo)
    (projects : List (String × Project)) : List ProjectInfo :=
  let groups := groupByProject sessions
  sortDesc (fun pi => pi.time.updated)
    ((groups.map (mkProjectInfoWith fs projects)) ++
      ((projects.filter
          (fun kv => !(groups.any (fun g => g.1 == kv.1)))).map
        (fun kv => mkProjectInfoZero fs kv.2)))

/-- The anchored filename pattern `^(\d{4}-\d{2}-\d{2})T(\d{2})(\d{2})(\d{2})\.log$`
of `loadLogs`, returning the numeric timestamp `new Date(...)` derives from
the matched groups (encoded as the concatenated digits, which is monotone in
the chronological order used by the sort comparator). -/
def logNamePattern (cs : List Char) : Option Nat :=
  match cs with
  | [y1, y2, y3, y4, '-', m1, m2, '-', d1, d2, 'T',
     h1, h2, i1, i2, s1, s2, '.', 'l', 'o', 'g'] =>
    if ([y1, y2, y3, y4, m1, m2, d1, d2, h1, h2, i1, i2, s1, s2].all Char.isDigit)
    then
      some (([y1, y2, y3, y4, m1, m2, d1, d2, h1, h2, i1, i2, s1, s2].map
        (fun c => c.toNat - 48)).foldl (fun a d => 10 * a + d) 0)
    else none
  | _ => none

/-- The date `loadLogs` attaches to a log file: parsed from the filename when
it matches the pattern, otherwise `new Date()` — the clock value `now` at the
time of the call. -/
def parseLogDate (name : String) (now : Nat) : Nat :=
  (logNamePattern name.data).getD now

/-- `loadLogs`: one `LogFile` per `.log` entry of `LOG_DIR`, sorted by date
descending. -/
def loadLogs (fs : FS) (now : Nat) : List LogFile :=
  sortDesc (fun l => l.date)
    ((fs.logFiles.filter (fun f => jsEndsWith f.name ".log")).map
      (fun f =>
        { path := f.name
          filename := f.name
          date := parseLogDate f.name now
          sizeBytes := f.size }))

/-- The aggregate snapshot `LoadedData`. -/
structure LoadedData where
  sessions : List SessionInfo
  projects : List ProjectInfo
  logs : List LogFile
deriving DecidableEq

/-- `loadAllData`: projects, then sessions, then project infos, then logs.
`now` is the clock value at the time of the call (consulted only by
`loadLogs`' fallback date). -/
def loadAllData (fs : FS) (now : Nat) : LoadedData :=
  let projects := loadProjects fs
  let sessions := loadSessions fs projects
  { sessions := sessions
    projects := loadProjectInfos fs sessions projects
    logs := loadLogs fs now }

/-! ### Deletion (`src/delete.ts`, provided as `src/unnamed/part_000`) -/

/-- Whether the target of a symbolic path currently exists. -/
def targetExists (fs : FS) : FsPath → Bool
  | .messageDir sid => (fs.messageDirs sid).isSome
  | .partDir mid => (fs.partDirs mid).isSome
  | .diffFile sid => (fs.diffFiles sid).isSome
  | .todoFile sid => (fs.todoFiles sid).isSome
  | .sessionFile pid sid =>
    fs.sessionDirs.any (fun e => e.1 == pid && e.2.any (fun f => f.name == sid ++ ".json"))
  | .sessionProjectDir pid => fs.sessionDirs.any (fun e => e.1 == pid)
  | .projectFile pid => fs.projectFiles.any (fun f => f.name == pid ++ ".json")
  | .snapshotDir pid => fs.snapshotDirs pid
  | .logFile name => fs.logFiles.any (fun f => f.name == name)
  | .frecencyFile => fs.frecency.isSome

/-- The state change of a successful `rm` at a symbolic path (a no-op when
the target is already absent). -/
def rmTarget (fs : FS) : FsPath → FS
  | .messageDir sid =>
    { fs with messageDirs := fun x => if x = sid then none else fs.messageDirs x }
  | .partDir mid =>
    { fs with partDirs := fun x => if x = mid then none else fs.partDirs x }
  | .diffFile sid =>
    { fs with diffFiles := fun x => if x = sid then none else fs.diffFiles x }
  | .todoFile sid =>
    { fs with todoFiles := fun x => if x = sid then none else fs.todoFiles x }
  | .sessionFile pid sid =>
    { fs with sessionDirs := (fs.sessionDirs.map
        (fun e => if e.1 == pid then (e.1, e.2.filter (fun f => !(f.name == sid ++ ".json"))) else e)) }
  | .sessionProjectDir pid =>
    { fs with sessionDirs := fs.sessionDirs.filter (fun e => !(e.1 == pid)) }
  | .projectFile pid =>
    { fs with projectFiles := fs.projectFiles.filter (fun f => !(f.name == pid ++ ".json")) }
  | .snapshotDir pid =>
    { fs with snapshotDirs := fun x => if x = pid then false else fs.snapshotDirs x }
  | .logFile name =>
    { fs with logFiles := fs.logFiles.filter (fun f => !(f.name == name)) }
  | .frecencyFile => { fs with frecency := none }

/-- `safeRm`: `rm(path, {force: true, ...})` wrapped in try/catch.  `force`
makes removal of an absent target a successful no-op; a thrown I/O error on an
existing target (the `rmFails` oracle) is caught and reported as `false`,
leaving the state unchanged. -/
def safeRm (fs : FS) (p : FsPath) : Bool × FS :=
  if targetExists fs p && fs.rmFails p then (false, fs)
  else (true, rmTarget fs p)

/-- The result record of `deleteSession`. -/
structure DeleteSessionResult where
  success : Bool
  sessionID : String
  filesDeleted : Nat
  bytesFreed : Nat
  error : Option String
deriving DecidableEq

/-- Step 2 of `deleteSession`: remove one part directory, counting a `true`
return of `safeRm` as one deleted unit. -/
def partsStep (acc : Nat × FS) (mid : String) : Nat × FS :=
  let r := safeRm acc.2 (FsPath.partDir mid)
  (acc.1 + (if r.1 then 1 else 0), r.2)

/-- `deleteSession`: enumerate message ids (from the pre-deletion state),
then sequentially remove the part directories, the message directory, the
diff file, the todo file and the session record file, counting each `true`
`safeRm` return.  The source wraps the sequence in a try/catch, but every
operation inside the block catches its own errors (`safeRm`, `readJsonFile`,
and the inner try around `readdir`), so the catch branch is unreachable and
the returned record always has `success: true`, `error` absent and
`bytesFreed = session.sizeBytes`. -/
def deleteSession (fs : FS) (session : SessionInfo) :
    DeleteSessionResult × FS :=
  let mids := messageIDs fs session.id
  let a1 := mids.foldl partsStep (0, fs)
  let r2 := safeRm a1.2 (FsPath.messageDir session.id)
  let n2 := a1.1 + (if r2.1 then 1 else 0)
  let r3 := safeRm r2.2 (FsPath.diffFile session.id)
  let n3 := n2 + (if r3.1 then 1 else 0)
  let r4 := safeRm r3.2 (FsPath.todoFile session.id)
  let n4 := n3 + (if r4.1 then 1 else 0)
  let r5 := safeRm r4.2 (FsPath.sessionFile session.projectID session.id)
  let n5 := n4 + (if r5.1 then 1 else 0)
  ({ success := true
     sessionID := session.id
     filesDeleted := n5
     bytesFreed := session.sizeBytes
     error := none }, r5.2)

/-- `deleteSessions`: sequential batch, one result per input. -/
def deleteSessions (fs : FS) (sessions : List SessionInfo) :
    List DeleteSessionResult × FS :=
  sessions.foldl
    (fun acc s =>
      let r := deleteSession acc.2 s
      (acc.1 ++ [r.1], r.2))
    ([], fs)

/-- The loop body of `cleanFrecencyForDirectory`: skip empty lines, keep
lines that fail to parse or whose path does not start with `directory`,
count the removed ones. -/
def frecStep (directory : String) (acc : List FrecLine × Nat)
    (line : FrecLine) : List FrecLine × Nat :=
  if line.raw == "" then acc
  else
    match line.entry with
    | some e =>
      if !(jsStartsWith e.path directory) then (acc.1 ++ [line], acc.2)
      else (acc.1, acc.2 + 1)
    | none => (acc.1 ++ [line], acc.2)

/-- `cleanFrecencyForDirectory`: read the log, keep every non-empty line that
either fails to parse or whose entry's path does not start with `directory`,
count the removed ones, write the kept lines back.  A missing log returns `0`
and leaves the filesystem untouched (the catch branch). -/
def cleanFrecencyForDirectory (fs : FS) (directory : String) : Nat × FS :=
  match fs.frecency with
  | none => (0, fs)
  | some lines =>
    let acc := lines.foldl (frecStep directory) ([], 0)
    (acc.2, { fs with frecency := some acc.1 })

/-- The result record of `deleteLog`. -/
structure DeleteLogResult where
  success : Bool
  filename : String
  bytesFreed : Nat
  error : Option String
deriving DecidableEq

/-- `deleteLog`: one forced `rm` of the log's path; absence is success, and a
thrown error is caught and reported with `success: false` and zero bytes. -/
def deleteLog (fs : FS) (log : LogFile) : DeleteLogResult × FS :=
  if targetExists fs (FsPath.logFile log.path) && fs.rmFails (FsPath.logFile log.path) then
    ({ success := false
       filename := log.filename
       bytesFreed := 0
       error := some "io error" }, fs)
  else
    ({ success := true
       filename := log.filename
       bytesFreed := log.sizeBytes
       error := none }, rmTarget fs (FsPath.logFile log.path))

/-- `getProjectSessionCount`: the number of `.json` entries of
`SESSION_DIR/<projectID>` (`0` when the directory is missing). -/
def getProjectSessionCount (fs : FS) (projectID : String) : Nat :=
  match (fs.sessionDirs.find? (fun e => e.1 == projectID)).map (fun e => e.2) with
  | none => 0
  | some files => (files.filter (fun f => jsEndsWith f.name ".json")).length

/-- `cleanupEmptyProject`: re-check the live session-file count; only when it
is zero, remove the project record file, the per-project session directory
and the snapshot directory (best-effort each) and clean the frecency log by
the project's worktree, returning `true`; otherwise do nothing and return
`false`. -/
def cleanupEmptyProject (fs : FS) (projectID worktree : String) : Bool × FS :=
  if getProjectSessionCount fs projectID == 0 then
    let r1 := safeRm fs (FsPath.projectFile projectID)
    let r2 := safeRm r1.2 (FsPath.sessionProjectDir projectID)
    let r3 := safeRm r2.2 (FsPath.snapshotDir projectID)
    let r4 := cleanFrecencyForDirectory r3.2 worktree
    (true, r4.2)
  else (false, fs)

/-- The keep-predicate of the frecency rewrite: a line survives
`cleanFrecencyForDirectory dir` iff it is non-empty and either fails to parse
or its entry's path does not start with `dir`. -/
def frecKeep (dir : String) (line : FrecLine) : Bool :=
  !(line.raw == "") &&
    (match line.entry with
     | some e => !(jsStartsWith e.path dir)
     | none => true)

/-- The removed-predicate of the frecency rewrite: a line is counted as
removed iff it is non-empty, parses, and its entry's path starts with `dir`. -/
def frecRemoved (dir : String) (line : FrecLine) : Bool :=
  !(line.raw == "") &&
    (match line.entry with
     | some e => jsStartsWith e.path dir
     | none => false)

/-! ### Concrete fixtures (used by witnesses and counterexamples) -/

/-- A message record fixture. -/
def msgW : Message := ⟨"m1"⟩

/-- A session record fixture. -/
def sessW : Session := ⟨"s1", "p1", "/work", ⟨1, 5⟩⟩

/-- A project record fixture owning `sessW`. -/
def projW : Project := ⟨"p1", "/w", ⟨0, 9⟩⟩

/-- A session-less project record fixture. -/
def projW2 : Project := ⟨"p2", "/w2", ⟨0, 3⟩⟩

/-- The `SessionInfo` that `loadSessions` produces for `sessW` on `fsW`. -/
def siW : SessionInfo := ⟨sessW, 36, 1, true, "/w"⟩

/-- The `ProjectInfo` that `loadProjectInfos` produces for `projW` on `fsW`. -/
def piW : ProjectInfo := ⟨projW, 1, 36, false, [siW]⟩

/-- A populated filesystem fixture: one session with one message, one part
directory, a diff file, a frecency log with a parse failure and an empty
line, and two log files (one with a malformed name). -/
def fsW : FS :=
  { sessionDirs := [("p1", [⟨"s1.json", 7, some sessW⟩])]
    messageDirs := fun x =>
      if x = "s1" then some [⟨"m1.json", 3, some msgW⟩, ⟨"junk.txt", 2, none⟩]
      else none
    partDirs := fun x => if x = "m1" then some 11 else none
    diffFiles := fun x => if x = "s1" then some 13 else none
    todoFiles := fun _ => none
    projectFiles := [⟨"p1.json", some projW⟩, ⟨"p2.json", some projW2⟩]
    snapshotDirs := fun x => x == "p2"
    pathExists := fun x => x == "/w" || x == "/w2"
    frecency := some [⟨"lineA", some ⟨"/w/x", 1, 0⟩⟩, ⟨"", none⟩,
      ⟨"lineB", none⟩]
    logFiles := [⟨"2026-01-17T071231.log", 4⟩, ⟨"foo.log", 9⟩]
    rmFails := fun _ => false }

/-- An empty filesystem fixture. -/
def fsE : FS :=
  { sessionDirs := []
    messageDirs := fun _ => none
    partDirs := fun _ => none
    diffFiles := fun _ => none
    todoFiles := fun _ => none
    projectFiles := []
    snapshotDirs := fun _ => false
    pathExists := fun _ => false
    frecency := none
    logFiles := []
    rmFails := fun _ => false }

/-- A `SessionInfo` none of whose backing files exist on `fsE`. -/
def sessE : SessionInfo := ⟨⟨"s9", "p9", "/d9", ⟨0, 0⟩⟩, 0, 0, true, "/"⟩

/-- A `SessionInfo` for the I/O-failure scenario on `fsC3`. -/
def sessC3 : SessionInfo := ⟨⟨"s1", "p1", "/d", ⟨0, 0⟩⟩, 10, 1, false, "/"⟩

/-- A filesystem on which `rm` of the part directory `m1` throws. -/
def fsC3 : FS :=
  { fsE with
    messageDirs := fun x =>
      if x = "s1" then some [⟨"m1.json", 3, some msgW⟩] else none
    partDirs := fun x => if x = "m1" then some 7 else none
    rmFails := fun p => p == FsPath.partDir "m1" }

/-- A filesystem holding one log file whose name does not match the
timestamp pattern. -/
def fsL : FS := { fsE with logFiles := [⟨"badname.log", 5⟩] }

/-- A filesystem holding one log file whose name matches the timestamp
pattern. -/
def fsM : FS := { fsE with logFiles := [⟨"2026-01-17T071231.log", 4⟩] }

/-- The two-line frecency log of the spec scenario. -/
def linesG : List FrecLine :=
  [⟨"lineA", some ⟨"/a/b", 1, 0⟩⟩, ⟨"lineC", some ⟨"/c", 2, 0⟩⟩]

/-- A filesystem whose frecency log is `linesG`. -/
def fsG : FS := { fsE with frecency := some linesG }

/-- A frecency log with an empty (hence unparsable) interior line. -/
def linesF : List FrecLine := [⟨"", none⟩, ⟨"lineC", some ⟨"/c", 2, 0⟩⟩]

/-- A filesystem whose frecency log is `linesF`. -/
def fsF : FS := { fsE with frecency := some linesF }

/-- A loaded `LogFile` whose backing file no longer exists on `fsW`. -/
def logGone : LogFile := ⟨"gone.log", "gone.log", 0, 42⟩

/-- Invariant of the `sessionsByProject` accumulator: keys are distinct,
groups are non-empty, and each group holds sessions of exactly its key's
project, drawn from the input list `l`. -/
def GroupInv (l : List SessionInfo) (m : List (String × List SessionInfo)) :
    Prop :=
  (m.map Prod.fst).Nodup ∧
    ∀ kv ∈ m, kv.2 ≠ [] ∧ ∀ s ∈ kv.2, s.projectID = kv.1 ∧ s ∈ l

/-! ### Sorting lemmas -/

theorem mem_insertDesc {α : Type} (key : α → Nat) (x a : α) (l : List α) :
    a ∈ insertDesc key x l ↔ a = x ∨ a ∈ l := by
  induction l with
  | nil => simp [insertDesc]
  | cons y ys ih =>
    simp only [insertDesc]
    split
    · simp
    · simp only [List.mem_cons, ih]
      tauto

theorem mem_sortDesc_fold {α : Type} (key : α → Nat) (a : α) (l acc : List α) :
    a ∈ l.foldl (fun acc x => insertDesc key x acc) acc ↔ a ∈ acc ∨ a ∈ l := by
  induction l generalizing acc with
  | nil => simp
  | cons x xs ih =>
    simp only [List.foldl_cons, ih, mem_insertDesc, List.mem_cons]
    tauto

theorem mem_sortDesc {α : Type} (key : α → Nat) (a : α) (l : List α) :
    a ∈ sortDesc key l ↔ a ∈ l := by
  simp [sortDesc, mem_sortDesc_fold]

theorem countP_insertDesc {α : Type} (key : α → Nat) (p : α → Bool) (x : α)
    (l : List α) :
    (insertDesc key x l).countP p = (if p x then 1 else 0) + l.countP p := by
  induction l with
  | nil => simp [insertDesc, List.countP_cons]
  | cons y ys ih =>
    simp only [insertDesc]
    split
    · simp [List.countP_cons]; omega
    · simp [List.countP_cons, ih]; omega

theorem countP_sortDesc_fold {α : Type} (key : α → Nat) (p : α → Bool)
    (l acc : List α) :
    (l.foldl (fun acc x => insertDesc key x acc) acc).countP p
      = acc.countP p + l.countP p := by
  induction l generalizing acc with
  | nil => simp
  | cons x xs ih =>
    simp only [List.foldl_cons, ih, countP_insertDesc, List.countP_cons]
    split <;> omega

theorem countP_sortDesc {α : Type} (key : α → Nat) (p : α → Bool) (l : List α) :
    (sortDesc key l).countP p = l.countP p := by
  simp [sortDesc, countP_sortDesc_fold]

/-! ### `loadSessions` membership -/

/-- Every element of `loadSessions` arises from a `.json` session record file
that parses, via `mkSessionInfo` with the directory's resolved worktree. -/
theorem mem_loadSessions (fs : FS) (projects : List (String × Project))
    (si : SessionInfo) :
    si ∈ loadSessions fs projects ↔
      ∃ pd ∈ fs.sessionDirs, ∃ f ∈ pd.2,
        jsEndsWith f.name ".json" = true ∧ ∃ s, f.sess = some s ∧
          si = mkSessionInfo fs
            (match mapGet projects pd.1 with
             | some p => p.worktree
             | none => "/") f.size s := by
  simp only [loadSessions, mem_sortDesc, List.mem_flatMap, List.mem_filterMap]
  constructor
  · rintro ⟨pd, hpd, f, hf, hsome⟩
    refine ⟨pd, hpd, f, hf, ?_⟩
    by_cases hj : jsEndsWith f.name ".json" = true
    · simp only [hj, if_pos] at hsome
      rcases Option.map_eq_some'.mp hsome with ⟨s, hs, hmk⟩
      exact ⟨hj, s, hs, hmk.symm⟩
    · simp [hj] at hsome
  · rintro ⟨pd, hpd, f, hf, hj, s, hs, hmk⟩
    refine ⟨pd, hpd, f, hf, ?_⟩
    simp [hj, hs, hmk]

/-! ### Grouping lemmas -/

theorem addToGroup_inv (l : List SessionInfo)
    (m : List (String × List SessionInfo)) (t : SessionInfo)
    (hinv : GroupInv l m) (ht : t ∈ l) : GroupInv l (addToGroup m t) := by
  obtain ⟨hnd, hent⟩ := hinv
  unfold addToGroup
  by_cases h : m.any (fun kv => kv.1 == t.projectID) = true
  · simp only [h, if_pos]
    constructor
    · have : (m.map (fun kv =>
          if kv.1 == t.projectID then (kv.1, kv.2 ++ [t]) else kv)).map Prod.fst
          = m.map Prod.fst := by
        rw [List.map_map]
        apply List.map_congr_left
        intro kv _
        simp only [Function.comp_apply]
        split <;> rfl
      rw [this]; exact hnd
    · intro kv' hkv'
      rcases List.mem_map.mp hkv' with ⟨kv, hkv, hfkv⟩
      by_cases hkv1 : (kv.1 == t.projectID) = true
      · simp only [hkv1, if_pos] at hfkv
        subst hfkv
        refine ⟨by simp, ?_⟩
        intro s hs
        rcases List.mem_append.mp hs with hs | hs
        · exact ⟨((hent kv hkv).2 s hs).1, ((hent kv hkv).2 s hs).2⟩
        · simp only [List.mem_singleton] at hs
          subst hs
          exact ⟨by symm; simpa using hkv1, ht⟩
      · simp only [hkv1, if_neg, Bool.not_eq_true] at hfkv
        subst hfkv
        exact hent kv hkv
  · simp only [h, if_neg, Bool.not_eq_true]
    constructor
    · rw [List.map_append]
      simp only [List.map_cons, List.map_nil]
      rw [List.nodup_append]
      refine ⟨hnd, List.nodup_singleton _, ?_⟩
      intro a ha hb
      simp only [List.mem_singleton] at hb
      subst hb
      rcases List.mem_map.mp ha with ⟨kv, hkv, hfst⟩
      have := List.any_eq_false.mp (Bool.not_eq_true _ ▸ h) kv hkv
      simp only [beq_iff_eq] at this
      exact this (by rw [← hfst])
    · intro kv hkv
      rcases List.mem_append.mp hkv with hkv | hkv
      · exact hent kv hkv
      · simp only [List.mem_singleton] at hkv
        subst hkv
        exact ⟨by simp, by simpa using ht⟩

theorem groupByProject_fold_inv (l : List SessionInfo)
    (rest : List SessionInfo) (m : List (String × List SessionInfo))
    (hinv : GroupInv l m) (hrest : ∀ t ∈ rest, t ∈ l) :
    GroupInv l (rest.foldl addToGroup m) := by
  induction rest generalizing m with
  | nil => exact hinv
  | cons t rest' ih =>
    simp only [List.foldl_cons]
    exact ih _ (addToGroup_inv l m t hinv (hrest t (by simp)))
      (fun x hx => hrest x (by simp [hx]))

theorem groupByProject_inv (l : List SessionInfo) :
    GroupInv l (groupByProject l) :=
  groupByProject_fold_inv l l []
    ⟨List.nodup_nil, by intro kv hkv; simp at hkv⟩ (fun _ h => h)

theorem addToGroup_preserve (m : List (String × List SessionInfo))
    (t : SessionInfo) (c : String) (s : SessionInfo)
    (hex : ∃ kv ∈ m, kv.1 = c ∧ s ∈ kv.2) :
    ∃ kv ∈ addToGroup m t, kv.1 = c ∧ s ∈ kv.2 := by
  rcases hex with ⟨kv, hkv, hc, hs⟩
  unfold addToGroup
  by_cases h : m.any (fun kv => kv.1 == t.projectID) = true
  · simp only [h, if_pos]
    by_cases hkv1 : (kv.1 == t.projectID) = true
    · refine ⟨(kv.1, kv.2 ++ [t]), List.mem_map.mpr ⟨kv, hkv, by simp [hkv1]⟩,
        hc, by simp [hs]⟩
    · refine ⟨kv, List.mem_map.mpr ⟨kv, hkv, by simp [hkv1]⟩, hc, hs⟩
  · simp only [h, if_neg, Bool.not_eq_true]
    exact ⟨kv, List.mem_append.mpr (Or.inl hkv), hc, hs⟩

theorem addToGroup_create (m : List (String × List SessionInfo))
    (s : SessionInfo) :
    ∃ kv ∈ addToGroup m s, kv.1 = s.projectID ∧ s ∈ kv.2 := by
  unfold addToGroup
  by_cases h : m.any (fun kv => kv.1 == s.projectID) = true
  · simp only [h, if_pos]
    rcases List.any_eq_true.mp h with ⟨kv, hkv, hbeq⟩
    refine ⟨(kv.1, kv.2 ++ [s]), List.mem_map.mpr ⟨kv, hkv, by simp [hbeq]⟩,
      by simpa using hbeq, by simp⟩
  · simp only [h, if_neg, Bool.not_eq_true]
    exact ⟨(s.projectID, [s]), List.mem_append.mpr (Or.inr (by simp)),
      rfl, by simp⟩

theorem groupByProject_fold_mem (s : SessionInfo) (rest : List SessionInfo)
    (m : List (String × List SessionInfo))
    (h : (∃ kv ∈ m, kv.1 = s.projectID ∧ s ∈ kv.2) ∨ s ∈ rest) :
    ∃ kv ∈ rest.foldl addToGroup m, kv.1 = s.projectID ∧ s ∈ kv.2 := by
  induction rest generalizing m with
  | nil =>
    rcases h with h | h
    · exact h
    · simp at h
  | cons t rest' ih =>
    simp only [List.foldl_cons]
    rcases h with h | h
    · exact ih (addToGroup m t) (Or.inl (addToGroup_preserve m t _ s h))
    · rcases List.mem_cons.mp h with rfl | h
      · exact ih (addToGroup m s) (Or.inl (addToGroup_create m s))
      · exact ih (addToGroup m t) (Or.inr h)

theorem mem_groupByProject (l : List SessionInfo) (s : SessionInfo)
    (hs : s ∈ l) :
    ∃ kv ∈ groupByProject l, kv.1 = s.projectID ∧ s ∈ kv.2 :=
  groupByProject_fold_mem s l [] (Or.inr hs)

theorem countP_group_eq_one (m : List (String × List SessionInfo))
    (s : SessionInfo) (hnd : (m.map Prod.fst).Nodup)
    (hkey : ∀ kv ∈ m, ∀ x ∈ kv.2, x.projectID = kv.1)
    (hex : ∃ kv ∈ m, s ∈ kv.2) :
    m.countP (fun kv => decide (s ∈ kv.2)) = 1 := by
  induction m with
  | nil => simp at hex
  | cons kv0 rest ih =>
    simp only [List.countP_cons]
    by_cases hs0 : s ∈ kv0.2
    · have hzero : rest.countP (fun kv => decide (s ∈ kv.2)) = 0 := by
        rw [List.countP_eq_zero]
        intro kv hkv
        simp only [decide_eq_true_eq]
        intro hcontra
        have h1 : s.projectID = kv.1 := hkey kv (by simp [hkv]) s hcontra
        have h2 : s.projectID = kv0.1 := hkey kv0 (by simp) s hs0
        have hmem : kv0.1 ∈ rest.map Prod.fst :=
          List.mem_map.mpr ⟨kv, hkv, by rw [← h1, h2]⟩
        simp only [List.map_cons, List.nodup_cons] at hnd
        exact hnd.1 hmem
      simp [hzero, hs0]
    · have hrest : ∃ kv ∈ rest, s ∈ kv.2 := by
        rcases hex with ⟨kv, hkv, hskv⟩
        rcases List.mem_cons.mp hkv with rfl | hkv
        · exact absurd hskv hs0
        · exact ⟨kv, hkv, hskv⟩
      have hnd' : (rest.map Prod.fst).Nodup := by
        simp only [List.map_cons, List.nodup_cons] at hnd
        exact hnd.2
      have := ih hnd' (fun kv hkv => hkey kv (by simp [hkv])) hrest
      simp [this, hs0]

/-! ### `loadProjects` lemmas -/

theorem mapSet_inv (m : List (String × Project)) (p : Project)
    (hnd : (m.map Prod.fst).Nodup) (hid : ∀ kv ∈ m, kv.2.id = kv.1) :
    ((mapSet m p.id p).map Prod.fst).Nodup ∧
      ∀ kv ∈ mapSet m p.id p, kv.2.id = kv.1 := by
  unfold mapSet
  by_cases h : m.any (fun kv => kv.1 == p.id) = true
  · simp only [h, if_pos]
    constructor
    · have : (m.map (fun kv => if kv.1 == p.id then (kv.1, p) else kv)).map
          Prod.fst = m.map Prod.fst := by
        rw [List.map_map]
        apply List.map_congr_left
        intro kv _
        simp only [Function.comp_apply]
        split <;> rfl
      rw [this]; exact hnd
    · intro kv' hkv'
      rcases List.mem_map.mp hkv' with ⟨kv, hkv, hfkv⟩
      by_cases hkv1 : (kv.1 == p.id) = true
      · simp only [hkv1, if_pos] at hfkv
        subst hfkv
        have hkv1' : kv.1 = p.id := by simpa using hkv1
        exact hkv1'.symm
      · simp only [hkv1, if_neg, Bool.not_eq_true] at hfkv
        subst hfkv
        exact hid kv hkv
  · simp only [h, if_neg, Bool.not_eq_true]
    constructor
    · rw [List.map_append]
      simp only [List.map_cons, List.map_nil]
      rw [List.nodup_append]
      refine ⟨hnd, List.nodup_singleton _, ?_⟩
      intro a ha hb
      simp only [List.mem_singleton] at hb
      subst hb
      rcases List.mem_map.mp ha with ⟨kv, hkv, hfst⟩
      have := List.any_eq_false.mp (Bool.not_eq_true _ ▸ h) kv hkv
      simp only [beq_iff_eq] at this
      exact this (by rw [← hfst])
    · intro kv hkv
      rcases List.mem_append.mp hkv with hkv | hkv
      · exact hid kv hkv
      · simp only [List.mem_singleton] at hkv
        subst hkv
        rfl

theorem loadProjects_inv (fs : FS) :
    (((loadProjects fs).map Prod.fst).Nodup ∧
      ∀ kv ∈ loadProjects fs, kv.2.id = kv.1) := by
  unfold loadProjects
  generalize fs.projectFiles = files
  suffices h : ∀ (m : List (String × Project)), (m.map Prod.fst).Nodup →
      (∀ kv ∈ m, kv.2.id = kv.1) →
      (((files.foldl (fun m pf =>
          if jsEndsWith pf.name ".json" then
            match pf.content with
            | some p => mapSet m p.id p
            | none => m
          else m) m).map Prod.fst).Nodup ∧
        ∀ kv ∈ files.foldl (fun m pf =>
          if jsEndsWith pf.name ".json" then
            match pf.content with
            | some p => mapSet m p.id p
            | none => m
          else m) m, kv.2.id = kv.1) by
    exact h [] List.nodup_nil (by intro kv hkv; simp at hkv)
  induction files with
  | nil => intro m h1 h2; exact ⟨h1, h2⟩
  | cons pf rest ih =>
    intro m h1 h2
    simp only [List.foldl_cons]
    by_cases hj : jsEndsWith pf.name ".json" = true
    · simp only [hj, if_pos]
      cases hc : pf.content with
      | none => exact ih m h1 h2
      | some p =>
        have := mapSet_inv m p h1 h2
        exact ih (mapSet m p.id p) this.1 this.2
    · simp only [hj, if_neg, Bool.not_eq_true]
      exact ih m h1 h2

theorem find_of_keysNodup (m : List (String × Project))
    (kv : String × Project) (hnd : (m.map Prod.fst).Nodup) (hkv : kv ∈ m) :
    m.find? (fun e => e.1 == kv.1) = some kv := by
  induction m with
  | nil => simp at hkv
  | cons e rest ih =>
    rcases List.mem_cons.mp hkv with rfl | hkv'
    · simp [List.find?]
    · have hnd1 : e.1 ∉ rest.map Prod.fst ∧ (rest.map Prod.fst).Nodup := by
        simpa using hnd
      have hne : e.1 ≠ kv.1 := fun hcontra =>
        hnd1.1 (List.mem_map.mpr ⟨kv, hkv', hcontra.symm⟩)
      have hfalse : (e.1 == kv.1) = false := by simpa using hne
      simp only [List.find?, hfalse]
      exact ih hnd1.2 hkv'

theorem mapGet_of_mem (m : List (String × Project)) (kv : String × Project)
    (hnd : (m.map Prod.fst).Nodup) (hkv : kv ∈ m) :
    mapGet m kv.1 = some kv.2 := by
  unfold mapGet
  rw [find_of_keysNodup m kv hnd hkv]
  rfl

/-! ### `loadProjectInfos` lemmas -/

theorem sumSizes_fold (l : List SessionInfo) (n : Nat) :
    l.foldl (fun sum s => sum + s.sizeBytes) n
      = n + (l.map (fun s => s.sizeBytes)).sum := by
  induction l generalizing n with
  | nil => simp
  | cons s rest ih => simp [ih]; omega

theorem sumSizes_eq (l : List SessionInfo) :
    sumSizes l = (l.map (fun s => s.sizeBytes)).sum := by
  simp [sumSizes, sumSizes_fold]

theorem mkProjectInfoWith_sessions (fs : FS)
    (projects : List (String × Project)) (kv : String × List SessionInfo) :
    (mkProjectInfoWith fs projects kv).sessions = kv.2 := by
  cases h : mapGet projects kv.1 <;> simp [mkProjectInfoWith, h]

theorem mkProjectInfoWith_count (fs : FS)
    (projects : List (String × Project)) (kv : String × List SessionInfo) :
    (mkProjectInfoWith fs projects kv).sessionCount = kv.2.length := by
  cases h : mapGet projects kv.1 <;> simp [mkProjectInfoWith, h]

theorem mkProjectInfoWith_total (fs : FS)
    (projects : List (String × Project)) (kv : String × List SessionInfo) :
    (mkProjectInfoWith fs projects kv).totalSizeBytes = sumSizes kv.2 := by
  cases h : mapGet projects kv.1 <;> simp [mkProjectInfoWith, h]

theorem mem_loadProjectInfos (fs : FS) (sessions : List SessionInfo)
    (projects : List (String × Project)) (pinfo : ProjectInfo) :
    pinfo ∈ loadProjectInfos fs sessions projects ↔
      ((∃ kv ∈ groupByProject sessions,
          pinfo = mkProjectInfoWith fs projects kv) ∨
        (∃ kv ∈ projects,
          ((groupByProject sessions).any (fun g => g.1 == kv.1)) = false ∧
            pinfo = mkProjectInfoZero fs kv.2)) := by
  simp only [loadProjectInfos, mem_sortDesc, List.mem_append, List.mem_map,
    List.mem_filter]
  constructor
  · rintro (⟨kv, hkv, hmk⟩ | ⟨kv, ⟨hkv, hflt⟩, hmk⟩)
    · exact Or.inl ⟨kv, hkv, hmk.symm⟩
    · refine Or.inr ⟨kv, hkv, ?_, hmk.symm⟩
      simpa using hflt
  · rintro (⟨kv, hkv, hmk⟩ | ⟨kv, hkv, hany, hmk⟩)
    · exact Or.inl ⟨kv, hkv, hmk.symm⟩
    · exact Or.inr ⟨kv, ⟨hkv, by simpa using hany⟩, hmk.symm⟩

/-! ### Deletion-state lemmas -/

theorem safeRm_noFail (fs : FS) (p : FsPath) (h : fs.rmFails p = false) :
    safeRm fs p = (true, rmTarget fs p) := by
  simp [safeRm, h]

theorem rmTarget_rmFails (fs : FS) (p : FsPath) :
    (rmTarget fs p).rmFails = fs.rmFails := by
  cases p <;> rfl

theorem safeRm_rmFails (fs : FS) (p : FsPath) :
    (safeRm fs p).2.rmFails = fs.rmFails := by
  unfold safeRm
  split
  · rfl
  · exact rmTarget_rmFails fs p

theorem safeRm_partDir_messageDirs (fs : FS) (mid : String) :
    ((safeRm fs (FsPath.partDir mid)).2).messageDirs = fs.messageDirs := by
  unfold safeRm
  split <;> rfl

theorem safeRm_partDir_diffFiles (fs : FS) (mid : String) :
    ((safeRm fs (FsPath.partDir mid)).2).diffFiles = fs.diffFiles := by
  unfold safeRm
  split <;> rfl

theorem safeRm_partDir_todoFiles (fs : FS) (mid : String) :
    ((safeRm fs (FsPath.partDir mid)).2).todoFiles = fs.todoFiles := by
  unfold safeRm
  split <;> rfl

theorem safeRm_partDir_sessionDirs (fs : FS) (mid : String) :
    ((safeRm fs (FsPath.partDir mid)).2).sessionDirs = fs.sessionDirs := by
  unfold safeRm
  split <;> rfl

theorem partsFold_rmFails (mids : List String) (acc : Nat × FS) :
    (mids.foldl partsStep acc).2.rmFails = acc.2.rmFails := by
  induction mids generalizing acc with
  | nil => rfl
  | cons mid rest ih =>
    simp only [List.foldl_cons]
    rw [ih]
    exact safeRm_rmFails acc.2 _

theorem partsFold_messageDirs (mids : List String) (acc : Nat × FS) :
    (mids.foldl partsStep acc).2.messageDirs = acc.2.messageDirs := by
  induction mids generalizing acc with
  | nil => rfl
  | cons mid rest ih =>
    simp only [List.foldl_cons]
    rw [ih]
    exact safeRm_partDir_messageDirs acc.2 mid

theorem partsFold_diffFiles (mids : List String) (acc : Nat × FS) :
    (mids.foldl partsStep acc).2.diffFiles = acc.2.diffFiles := by
  induction mids generalizing acc with
  | nil => rfl
  | cons mid rest ih =>
    simp only [List.foldl_cons]
    rw [ih]
    exact safeRm_partDir_diffFiles acc.2 mid

theorem partsFold_todoFiles (mids : List String) (acc : Nat × FS) :
    (mids.foldl partsStep acc).2.todoFiles = acc.2.todoFiles := by
  induction mids generalizing acc with
  | nil => rfl
  | cons mid rest ih =>
    simp only [List.foldl_cons]
    rw [ih]
    exact safeRm_partDir_todoFiles acc.2 mid

theorem partsFold_sessionDirs (mids : List String) (acc : Nat × FS) :
    (mids.foldl partsStep acc).2.sessionDirs = acc.2.sessionDirs := by
  induction mids generalizing acc with
  | nil => rfl
  | cons mid rest ih =>
    simp only [List.foldl_cons]
    rw [ih]
    exact safeRm_partDir_sessionDirs acc.2 mid

theorem partsFold_count_noFail (mids : List String) (n : Nat) (fs : FS)
    (h : ∀ p, fs.rmFails p = false) :
    (mids.foldl partsStep (n, fs)).1 = n + mids.length := by
  induction mids generalizing n fs with
  | nil => simp
  | cons mid rest ih =>
    simp only [List.foldl_cons, partsStep, safeRm_noFail _ _ (h _), if_true]
    rw [ih (n + 1) (rmTarget fs (FsPath.partDir mid))
      (fun p => by rw [rmTarget_rmFails]; exact h p)]
    simp [List.length_cons]
    omega

theorem partsFold_partDirs_noFail (mids : List String) (n : Nat) (fs : FS)
    (h : ∀ p, fs.rmFails p = false) (x : String) :
    (mids.foldl partsStep (n, fs)).2.partDirs x
      = if x ∈ mids then none else fs.partDirs x := by
  induction mids generalizing n fs with
  | nil => simp
  | cons mid rest ih =>
    simp only [List.foldl_cons, partsStep, safeRm_noFail _ _ (h _), if_true]
    rw [ih (n + 1) (rmTarget fs (FsPath.partDir mid))
      (fun p => by rw [rmTarget_rmFails]; exact h p)]
    by_cases hx : x ∈ rest
    · simp [hx]
    · by_cases hxm : x = mid
      · subst hxm
        simp [hx, rmTarget]
      · simp [hx, hxm, rmTarget]

theorem safeRm_sessionFile_todoFiles (g : FS) (pid sid : String) :
    ((safeRm g (FsPath.sessionFile pid sid)).2).todoFiles = g.todoFiles := by
  unfold safeRm
  split <;> rfl

theorem targetExists_rm_sessionFile (g : FS) (pid sid : String) :
    targetExists (rmTarget g (FsPath.sessionFile pid sid))
      (FsPath.sessionFile pid sid) = false := by
  simp only [targetExists, rmTarget]
  rw [List.any_eq_false]
  intro e he
  rcases List.mem_map.mp he with ⟨e0, he0, rfl⟩
  by_cases hp : (e0.1 == pid) = true
  · have hinner : ((e0.2.filter (fun f => !(f.name == sid ++ ".json"))).any
        (fun f => f.name == sid ++ ".json")) = false := by
      rw [List.any_eq_false]
      intro f hf
      have hkeep := (List.mem_filter.mp hf).2
      simp only [Bool.not_eq_true'] at hkeep
      simp [hkeep]
    simp [hp, hinner]
  · simp [hp]

/-- The final state of `deleteSession` as the sequential composition of its
five removal phases (definitional unfolding of the `let` chain). -/
theorem deleteSession_state_eq (fs : FS) (s : SessionInfo) :
    (deleteSession fs s).2 =
      (safeRm (safeRm (safeRm (safeRm
        (((messageIDs fs s.id).foldl partsStep (0, fs)).2)
        (FsPath.messageDir s.id)).2
        (FsPath.diffFile s.id)).2
        (FsPath.todoFile s.id)).2
        (FsPath.sessionFile s.projectID s.id)).2 := rfl

/-- The `filesDeleted` counter of `deleteSession` as the sum over its
removal phases (definitional unfolding of the `let` chain). -/
theorem deleteSession_count_eq (fs : FS) (s : SessionInfo) :
    (deleteSession fs s).1.filesDeleted =
      (((messageIDs fs s.id).foldl partsStep (0, fs)).1
        + (if (safeRm (((messageIDs fs s.id).foldl partsStep (0, fs)).2)
            (FsPath.messageDir s.id)).1 then 1 else 0)
        + (if (safeRm (safeRm (((messageIDs fs s.id).foldl partsStep (0, fs)).2)
            (FsPath.messageDir s.id)).2 (FsPath.diffFile s.id)).1 then 1 else 0)
        + (if (safeRm (safeRm (safeRm
            (((messageIDs fs s.id).foldl partsStep (0, fs)).2)
            (FsPath.messageDir s.id)).2 (FsPath.diffFile s.id)).2
            (FsPath.todoFile s.id)).1 then 1 else 0)
        + (if (safeRm (safeRm (safeRm (safeRm
            (((messageIDs fs s.id).foldl partsStep (0, fs)).2)
            (FsPath.messageDir s.id)).2 (FsPath.diffFile s.id)).2
            (FsPath.todoFile s.id)).2
            (FsPath.sessionFile s.projectID s.id)).1 then 1 else 0)) := rfl

/-- Under a failure-free filesystem, `deleteSession` removes the message
directory, every enumerated part directory, the diff file, the todo file and
the session record file, and counts one deletion per removal step —
`(number of message ids) + 4` — regardless of which targets existed. -/
theorem deleteSession_noFail (fs : FS) (s : SessionInfo)
    (h : ∀ p, fs.rmFails p = false) :
    (deleteSession fs s).1.filesDeleted = (messageIDs fs s.id).length + 4 ∧
    (deleteSession fs s).2.messageDirs s.id = none ∧
    (∀ mid ∈ messageIDs fs s.id, (deleteSession fs s).2.partDirs mid = none) ∧
    (deleteSession fs s).2.diffFiles s.id = none ∧
    (deleteSession fs s).2.todoFiles s.id = none ∧
    targetExists (deleteSession fs s).2
      (FsPath.sessionFile s.projectID s.id) = false := by
  have hg1rm : (((messageIDs fs s.id).foldl partsStep (0, fs)).2).rmFails
      = fs.rmFails := partsFold_rmFails _ _
  set g1 : FS := ((messageIDs fs s.id).foldl partsStep (0, fs)).2 with hg1
  have e2 : safeRm g1 (FsPath.messageDir s.id)
      = (true, rmTarget g1 (FsPath.messageDir s.id)) :=
    safeRm_noFail _ _ (by rw [hg1rm]; exact h _)
  set g2 : FS := rmTarget g1 (FsPath.messageDir s.id) with hg2
  have hg2rm : g2.rmFails = fs.rmFails := by
    rw [hg2, rmTarget_rmFails, hg1rm]
  have e3 : safeRm g2 (FsPath.diffFile s.id)
      = (true, rmTarget g2 (FsPath.diffFile s.id)) :=
    safeRm_noFail _ _ (by rw [hg2rm]; exact h _)
  set g3 : FS := rmTarget g2 (FsPath.diffFile s.id) with hg3
  have hg3rm : g3.rmFails = fs.rmFails := by
    rw [hg3, rmTarget_rmFails, hg2rm]
  have e4 : safeRm g3 (FsPath.todoFile s.id)
      = (true, rmTarget g3 (FsPath.todoFile s.id)) :=
    safeRm_noFail _ _ (by rw [hg3rm]; exact h _)
  set g4 : FS := rmTarget g3 (FsPath.todoFile s.id) with hg4
  have hg4rm : g4.rmFails = fs.rmFails := by
    rw [hg4, rmTarget_rmFails, hg3rm]
  have e5 : safeRm g4 (FsPath.sessionFile s.projectID s.id)
      = (true, rmTarget g4 (FsPath.sessionFile s.projectID s.id)) :=
    safeRm_noFail _ _ (by rw [hg4rm]; exact h _)
  set g5 : FS := rmTarget g4 (FsPath.sessionFile s.projectID s.id) with hg5
  have hstate : (deleteSession fs s).2 = g5 := by
    rw [deleteSession_state_eq, ← hg1, e2]
    simp only
    rw [e3]
    simp only
    rw [e4]
    simp only
    rw [e5]
  have hcount : (deleteSession fs s).1.filesDeleted
      = (messageIDs fs s.id).length + 4 := by
    rw [deleteSession_count_eq, ← hg1, e2]
    simp only
    rw [e3]
    simp only
    rw [e4]
    simp only
    rw [e5]
    simp only
    have hc := partsFold_count_noFail (messageIDs fs s.id) 0 fs h
    simp
    omega
  refine ⟨hcount, ?_, ?_, ?_, ?_, ?_⟩
  · rw [hstate, hg5, hg4, hg3, hg2]
    simp [rmTarget]
  · intro mid hmid
    rw [hstate, hg5, hg4, hg3, hg2]
    have hpart : g1.partDirs mid = none := by
      rw [hg1, partsFold_partDirs_noFail _ _ _ h]
      simp [hmid]
    simp [rmTarget, hpart]
  · rw [hstate, hg5, hg4, hg3]
    simp [rmTarget]
  · rw [hstate, hg5, hg4]
    simp [rmTarget]
  · rw [hstate, hg5]
    exact targetExists_rm_sessionFile g4 s.projectID s.id

/-- The todo-file step of `deleteSession` executes even when earlier steps
hit I/O errors: only a failure on the todo target itself can leave it in
place. -/
theorem deleteSession_todo_removed (fs : FS) (s : SessionInfo)
    (h : fs.rmFails (FsPath.todoFile s.id) = false) :
    (deleteSession fs s).2.todoFiles s.id = none := by
  rw [deleteSession_state_eq, safeRm_sessionFile_todoFiles]
  have hrm : ((safeRm (safeRm (((messageIDs fs s.id).foldl partsStep
      (0, fs)).2) (FsPath.messageDir s.id)).2 (FsPath.diffFile s.id)).2).rmFails
      (FsPath.todoFile s.id) = false := by
    rw [safeRm_rmFails, safeRm_rmFails, partsFold_rmFails]
    exact h
  rw [safeRm_noFail _ _ hrm]
  simp [rmTarget]

theorem deleteSessions_fold_length (l : List SessionInfo)
    (acc : List DeleteSessionResult × FS) :
    (l.foldl (fun acc s =>
      ((acc.1 ++ [(deleteSession acc.2 s).1], (deleteSession acc.2 s).2) :
        List DeleteSessionResult × FS)) acc).1.length
      = acc.1.length + l.length := by
  induction l generalizing acc with
  | nil => simp
  | cons s rest ih =>
    simp only [List.foldl_cons]
    rw [ih]
    simp
    omega

/-- `deleteSessions` returns one result per input session, and every result
reports success with no error. -/
theorem deleteSessions_spec (fs : FS) (l : List SessionInfo) :
    (deleteSessions fs l).1.length = l.length ∧
      ∀ r ∈ (deleteSessions fs l).1,
        r.success = true ∧ r.error = none := by
  have hfold : ∀ (rest : List SessionInfo)
      (acc : List DeleteSessionResult × FS),
      (∀ r ∈ acc.1, r.success = true ∧ r.error = none) →
      ∀ r ∈ (rest.foldl (fun acc s =>
        ((acc.1 ++ [(deleteSession acc.2 s).1], (deleteSession acc.2 s).2) :
          List DeleteSessionResult × FS)) acc).1,
        r.success = true ∧ r.error = none := by
    intro rest
    induction rest with
    | nil => intro acc hacc r hr; exact hacc r hr
    | cons s rest' ih =>
      intro acc hacc r hr
      refine ih _ ?_ r hr
      intro r' hr'
      rcases List.mem_append.mp hr' with hr' | hr'
      · exact hacc r' hr'
      · simp only [List.mem_singleton] at hr'
        subst hr'
        exact ⟨rfl, rfl⟩
  constructor
  · have hlen := deleteSessions_fold_length l ([], fs)
    simp only [List.length_nil, Nat.zero_add] at hlen
    exact hlen
  · exact hfold l ([], fs) (by intro r hr; simp at hr)

/-! ### `cleanFrecencyForDirectory` lemmas -/

theorem frecStep_empty (dir : String) (acc : List FrecLine × Nat)
    (line : FrecLine) (hr : (line.raw == "") = true) :
    frecStep dir acc line = acc := by
  simp [frecStep, hr]

theorem frecStep_removed (dir : String) (acc : List FrecLine × Nat)
    (line : FrecLine) (e : FrecencyEntry) (hr : (line.raw == "") = false)
    (he : line.entry = some e) (hs : jsStartsWith e.path dir = true) :
    frecStep dir acc line = (acc.1, acc.2 + 1) := by
  simp [frecStep, hr, he, hs]

theorem frecStep_kept_match (dir : String) (acc : List FrecLine × Nat)
    (line : FrecLine) (e : FrecencyEntry) (hr : (line.raw == "") = false)
    (he : line.entry = some e) (hs : jsStartsWith e.path dir = false) :
    frecStep dir acc line = (acc.1 ++ [line], acc.2) := by
  simp [frecStep, hr, he, hs]

theorem frecStep_kept_bad (dir : String) (acc : List FrecLine × Nat)
    (line : FrecLine) (hr : (line.raw == "") = false)
    (he : line.entry = none) :
    frecStep dir acc line = (acc.1 ++ [line], acc.2) := by
  simp [frecStep, hr, he]

theorem frecFold (dir : String) (lines : List FrecLine)
    (acc : List FrecLine × Nat) :
    lines.foldl (frecStep dir) acc
      = (acc.1 ++ lines.filter (frecKeep dir),
          acc.2 + lines.countP (frecRemoved dir)) := by
  induction lines generalizing acc with
  | nil => simp
  | cons line rest ih =>
    simp only [List.foldl_cons]
    by_cases hr : (line.raw == "") = true
    · rw [frecStep_empty dir acc line hr, ih]
      have hk : frecKeep dir line = false := by simp [frecKeep, hr]
      have hv : frecRemoved dir line = false := by simp [frecRemoved, hr]
      simp [List.filter_cons, List.countP_cons, hk, hv]
    · have hr' : (line.raw == "") = false := by simpa using hr
      cases he : line.entry with
      | some e =>
        by_cases hs : jsStartsWith e.path dir = true
        · rw [frecStep_removed dir acc line e hr' he hs, ih]
          have hk : frecKeep dir line = false := by
            simp [frecKeep, hr', he, hs]
          have hv : frecRemoved dir line = true := by
            simp [frecRemoved, hr', he, hs]
          simp only [List.filter_cons, List.countP_cons, hk, hv]
          refine Prod.ext rfl ?_
          simp
          omega
        · have hs' : jsStartsWith e.path dir = false := by simpa using hs
          rw [frecStep_kept_match dir acc line e hr' he hs', ih]
          have hk : frecKeep dir line = true := by
            simp [frecKeep, hr', he, hs']
          have hv : frecRemoved dir line = false := by
            simp [frecRemoved, hr', he, hs']
          simp only [List.filter_cons, List.countP_cons, hk, hv]
          refine Prod.ext ?_ ?_ <;> simp
      | none =>
        rw [frecStep_kept_bad dir acc line hr' he, ih]
        have hk : frecKeep dir line = true := by simp [frecKeep, hr', he]
        have hv : frecRemoved dir line = false := by simp [frecRemoved, hr', he]
        simp only [List.filter_cons, List.countP_cons, hk, hv]
        refine Prod.ext ?_ ?_ <;> simp

/-- Characterization of `cleanFrecencyForDirectory`: a missing log returns
`0` without creating the file; an existing log is rewritten to exactly the
lines satisfying `frecKeep` and the count of lines satisfying `frecRemoved`
is returned. -/
theorem cleanFrecency_spec (fs : FS) (dir : String) :
    (fs.frecency = none → cleanFrecencyForDirectory fs dir = (0, fs)) ∧
      (∀ lines, fs.frecency = some lines →
        (cleanFrecencyForDirectory fs dir).1
            = lines.countP (frecRemoved dir) ∧
          (cleanFrecencyForDirectory fs dir).2
            = { fs with frecency := some (lines.filter (frecKeep dir)) }) := by
  constructor
  · intro hnone
    simp [cleanFrecencyForDirectory, hnone]
  · intro lines hsome
    have hrw : cleanFrecencyForDirectory fs dir
        = ((lines.foldl (frecStep dir) ([], 0)).2,
            { fs with frecency := some ((lines.foldl (frecStep dir)
              ([], 0)).1) }) := by
      simp [cleanFrecencyForDirectory, hsome]
    rw [hrw, frecFold]
    simp

theorem targetExists_rm_projectFile (g : FS) (pid : String) :
    targetExists (rmTarget g (FsPath.projectFile pid))
      (FsPath.projectFile pid) = false := by
  simp only [targetExists, rmTarget]
  rw [List.any_eq_false]
  intro f hf
  have hkeep := (List.mem_filter.mp hf).2
  simp only [Bool.not_eq_true'] at hkeep
  simp [hkeep]

theorem targetExists_rm_sessionProjectDir (g : FS) (pid : String) :
    targetExists (rmTarget g (FsPath.sessionProjectDir pid))
      (FsPath.sessionProjectDir pid) = false := by
  simp only [targetExists, rmTarget]
  rw [List.any_eq_false]
  intro e he
  have hkeep := (List.mem_filter.mp he).2
  simp only [Bool.not_eq_true'] at hkeep
  simp [hkeep]

theorem cleanFrecency_projectFiles (g : FS) (d : String) :
    (cleanFrecencyForDirectory g d).2.projectFiles = g.projectFiles := by
  cases hf : g.frecency <;> simp [cleanFrecencyForDirectory, hf]

theorem cleanFrecency_sessionDirs (g : FS) (d : String) :
    (cleanFrecencyForDirectory g d).2.sessionDirs = g.sessionDirs := by
  cases hf : g.frecency <;> simp [cleanFrecencyForDirectory, hf]

theorem cleanFrecency_snapshotDirs (g : FS) (d : String) :
    (cleanFrecencyForDirectory g d).2.snapshotDirs = g.snapshotDirs := by
  cases hf : g.frecency <;> simp [cleanFrecencyForDirectory, hf]

/-! ### Claim theorems -/

/-- C1: for every session loaded into a snapshot by `loadSessions`, its
`sizeBytes` equals the recursive size of the message directory keyed by the
session's id, plus the recursive size of every part directory keyed by a
message id found in that message directory, plus the size of the session's
diff file, plus the size of its todo file, plus the size of the session's own
record file; a missing file or directory contributes `0` (built into
`messageDirSize`, `partsTotal` and `fileSize0`). -/
theorem c1_session_size (fs : FS) (projects : List (String × Project))
    (si : SessionInfo) (hsi : si ∈ loadSessions fs projects) :
    ∃ pd ∈ fs.sessionDirs, ∃ f ∈ pd.2, ∃ s, f.sess = some s ∧ s.id = si.id ∧
      si.sizeBytes
        = messageDirSize fs si.id + partsTotal fs si.id
          + fileSize0 (fs.diffFiles si.id) + fileSize0 (fs.todoFiles si.id)
          + f.size := by
  rcases (mem_loadSessions fs projects si).mp hsi with
    ⟨pd, hpd, f, hf, hj, s, hs, hmk⟩
  refine ⟨pd, hpd, f, hf, s, hs, ?_, ?_⟩
  · rw [hmk]
    rfl
  · rw [hmk]
    simp only [mkSessionInfo, getSessionSize]
    omega

/-- C1 witness: the populated fixture `fsW` has exactly one session, whose
`sizeBytes` decomposes as the claim states. -/
theorem c1_witness :
    siW ∈ loadSessions fsW (loadProjects fsW) ∧
      ∃ pd ∈ fsW.sessionDirs, ∃ f ∈ pd.2, ∃ s, f.sess = some s ∧
        s.id = siW.id ∧
        siW.sizeBytes
          = messageDirSize fsW siW.id + partsTotal fsW siW.id
            + fileSize0 (fsW.diffFiles siW.id) + fileSize0 (fsW.todoFiles siW.id)
            + f.size :=
  ⟨by decide, c1_session_size fsW (loadProjects fsW) siW (by decide)⟩

/-- C4: in every loaded snapshot, a session's `isOrphan` flag is true exactly
when its `directory` does not exist at load time, and a project's `isOrphan`
flag is true exactly when its `worktree` does not exist at load time or the
project has no backing record in the project map (the synthesized
placeholder case). -/
theorem c4_orphan_flags (fs : FS) (now : Nat) :
    (∀ si ∈ (loadAllData fs now).sessions,
        si.isOrphan = !(fs.pathExists si.directory)) ∧
      (∀ pinfo ∈ (loadAllData fs now).projects,
        pinfo.isOrphan
          = (!(fs.pathExists pinfo.worktree)
              || (mapGet (loadProjects fs) pinfo.id).isNone)) := by
  constructor
  · intro si hsi
    have hsi' : si ∈ loadSessions fs (loadProjects fs) := hsi
    rcases (mem_loadSessions fs (loadProjects fs) si).mp hsi' with
      ⟨pd, hpd, f, hf, hj, s, hs, hmk⟩
    rw [hmk]
    rfl
  · intro pinfo hpi
    have hpi' : pinfo ∈ loadProjectInfos fs (loadSessions fs (loadProjects fs))
        (loadProjects fs) := hpi
    have hinv := loadProjects_inv fs
    rcases (mem_loadProjectInfos fs _ _ pinfo).mp hpi' with
      ⟨kv, hkv, hmk⟩ | ⟨kv, hkv, hany, hmk⟩
    · cases hget : mapGet (loadProjects fs) kv.1 with
      | none =>
        rw [hmk]
        simp [mkProjectInfoWith, hget]
      | some p =>
        rw [hmk]
        have hpid : p.id = kv.1 := by
          unfold mapGet at hget
          cases hfind : (loadProjects fs).find? (fun e => e.1 == kv.1) with
          | none => rw [hfind] at hget; simp at hget
          | some e =>
            rw [hfind] at hget
            simp only [Option.map_some', Option.some.injEq] at hget
            have he1 := List.find?_some hfind
            have hei : e.2.id = e.1 :=
              hinv.2 e (List.mem_of_find?_eq_some hfind)
            rw [← hget, hei]
            simpa using he1
        have hpget : mapGet (loadProjects fs) p.id = some p := by
          rw [hpid]; exact hget
        simp [mkProjectInfoWith, hget, hpget]
    · rw [hmk]
      have hkey : kv.2.id = kv.1 := hinv.2 kv hkv
      have hget : mapGet (loadProjects fs) kv.2.id = some kv.2 := by
        rw [hkey]; exact mapGet_of_mem (loadProjects fs) kv hinv.1 hkv
      simp [mkProjectInfoZero, hget]

/-- C4 witness: on the fixture `fsW`, the loaded session is an orphan (its
directory `/work` does not exist) and the loaded project `p1` is not (its
worktree `/w` exists and its record is present). -/
theorem c4_witness :
    siW.isOrphan = !(fsW.pathExists siW.directory) ∧
      piW.isOrphan
        = (!(fsW.pathExists piW.worktree)
            || (mapGet (loadProjects fsW) piW.id).isNone) :=
  ⟨(c4_orphan_flags fsW 0).1 siW (by decide),
    (c4_orphan_flags fsW 0).2 piW (by decide)⟩

/-- C5: every input `SessionInfo` appears in the `sessions` list of exactly
one `ProjectInfo` of the snapshot assembled by `loadProjectInfos` — never in
two and never in none. -/
theorem c5_partition (fs : FS) (sessions : List SessionInfo)
    (projects : List (String × Project)) (s : SessionInfo)
    (hs : s ∈ sessions) :
    (loadProjectInfos fs sessions projects).countP
      (fun pinfo => decide (s ∈ pinfo.sessions)) = 1 := by
  unfold loadProjectInfos
  rw [countP_sortDesc, List.countP_append]
  have hzero : ((projects.filter
      (fun kv => !((groupByProject sessions).any
        (fun g => g.1 == kv.1)))).map
      (fun kv => mkProjectInfoZero fs kv.2)).countP
      (fun pinfo => decide (s ∈ pinfo.sessions)) = 0 := by
    rw [List.countP_eq_zero]
    intro pinfo hpinfo
    rcases List.mem_map.mp hpinfo with ⟨kv, _, rfl⟩
    simp [mkProjectInfoZero]
  rw [hzero]
  rw [List.countP_map]
  have hcong : ((groupByProject sessions).countP
      ((fun pinfo => decide (s ∈ pinfo.sessions)) ∘
        mkProjectInfoWith fs projects))
      = (groupByProject sessions).countP
        (fun kv => decide (s ∈ kv.2)) := by
    apply List.countP_congr
    intro kv _
    simp [mkProjectInfoWith_sessions]
  rw [hcong]
  have hinv := groupByProject_inv sessions
  rcases mem_groupByProject sessions s hs with ⟨kv, hkv, _, hskv⟩
  rw [countP_group_eq_one (groupByProject sessions) s hinv.1
    (fun kv hkv x hx => ((hinv.2 kv hkv).2 x hx).1) ⟨kv, hkv, hskv⟩]

/-- C5 witness: on the fixture, the single session lands in exactly one
project of the assembled snapshot. -/
theorem c5_witness :
    (loadProjectInfos fsW [siW] (loadProjects fsW)).countP
      (fun pinfo => decide (siW ∈ pinfo.sessions)) = 1 :=
  c5_partition fsW [siW] (loadProjects fsW) siW (by decide)

/-- C8: every `ProjectInfo` of the assembled snapshot has `totalSizeBytes`
equal to the sum of its member sessions' `sizeBytes` and `sessionCount` equal
to their number; and every project record whose id owns no session is emitted
as a `ProjectInfo` with `sessionCount = 0` and `totalSizeBytes = 0`. -/
theorem c8_project_totals (fs : FS) (sessions : List SessionInfo)
    (projects : List (String × Project)) :
    (∀ pinfo ∈ loadProjectInfos fs sessions projects,
        pinfo.totalSizeBytes
            = (pinfo.sessions.map (fun s => s.sizeBytes)).sum ∧
          pinfo.sessionCount = pinfo.sessions.length) ∧
      (∀ kv ∈ projects, (∀ s ∈ sessions, s.projectID ≠ kv.1) →
        ∃ pinfo ∈ loadProjectInfos fs sessions projects,
          pinfo.id = kv.2.id ∧ pinfo.sessionCount = 0 ∧
            pinfo.totalSizeBytes = 0 ∧ pinfo.sessions = []) := by
  constructor
  · intro pinfo hpi
    rcases (mem_loadProjectInfos fs sessions projects pinfo).mp hpi with
      ⟨kv, hkv, hmk⟩ | ⟨kv, hkv, hany, hmk⟩
    · rw [hmk, mkProjectInfoWith_sessions, mkProjectInfoWith_total,
        mkProjectInfoWith_count]
      exact ⟨sumSizes_eq kv.2, rfl⟩
    · rw [hmk]
      simp [mkProjectInfoZero]
  · intro kv hkv hnone
    have hany : ((groupByProject sessions).any
        (fun g => g.1 == kv.1)) = false := by
      rw [List.any_eq_false]
      intro g hg
      have hinv := groupByProject_inv sessions
      rcases (hinv.2 g hg) with ⟨hne, hmem⟩
      simp only [beq_iff_eq]
      intro hcontra
      cases hg2 : g.2 with
      | nil => exact hne hg2
      | cons x rest =>
        have hx : x ∈ g.2 := by rw [hg2]; simp
        have := hmem x hx
        exact hnone x this.2 (by rw [this.1, hcontra])
    refine ⟨mkProjectInfoZero fs kv.2, ?_, rfl, rfl, rfl, rfl⟩
    rw [mem_loadProjectInfos]
    exact Or.inr ⟨kv, hkv, hany, rfl⟩

/-- C8 witness: on the fixture, project `p1` totals its single session's
bytes and the session-less record `p2` is emitted with zero count and zero
bytes. -/
theorem c8_witness :
    (piW.totalSizeBytes = (piW.sessions.map (fun s => s.sizeBytes)).sum ∧
        piW.sessionCount = piW.sessions.length) ∧
      ∃ pinfo ∈ loadProjectInfos fsW [siW] (loadProjects fsW),
        pinfo.id = projW2.id ∧ pinfo.sessionCount = 0 ∧
          pinfo.totalSizeBytes = 0 ∧ pinfo.sessions = [] := by
  have h := c8_project_totals fsW [siW] (loadProjects fsW)
  exact ⟨h.1 piW (by decide), h.2 ("p2", projW2) (by decide) (by decide)⟩

/-- C2 counterexample: on the empty filesystem `fsE`, none of the deletion
targets of `sessE` exist, yet `deleteSession` returns `success = true` with
`filesDeleted = 4` — because the forced `rm` counts a removal of an absent
target as a success — refuting "filesDeleted equals the number of those
targets that existed on disk before the deletion began" (which would be 0). -/
theorem c2_counterexample :
    (deleteSession fsE sessE).1.success = true ∧
      messageIDs fsE sessE.id = [] ∧
      targetExists fsE (FsPath.messageDir sessE.id) = false ∧
      targetExists fsE (FsPath.diffFile sessE.id) = false ∧
      targetExists fsE (FsPath.todoFile sessE.id) = false ∧
      targetExists fsE (FsPath.sessionFile sessE.projectID sessE.id) = false ∧
      (deleteSession fsE sessE).1.filesDeleted = 4 ∧
      (deleteSession fsE sessE).1.filesDeleted ≠ 0 := by
  decide

/-- C2 (amended): after `deleteSession(S)` returns (always with
`success = true`), on a failure-free filesystem the message directory,
every part directory of an enumerated message id, the diff file, the todo
file and the session record file are absent from disk, and `filesDeleted`
equals the number of removal steps performed — message-id count plus four —
counting a step whose target was already absent as a success. -/
theorem c2_deletion_completeness (fs : FS) (s : SessionInfo)
    (h : ∀ p, fs.rmFails p = false) :
    (deleteSession fs s).1.success = true ∧
      (deleteSession fs s).2.messageDirs s.id = none ∧
      (∀ mid ∈ messageIDs fs s.id,
        (deleteSession fs s).2.partDirs mid = none) ∧
      (deleteSession fs s).2.diffFiles s.id = none ∧
      (deleteSession fs s).2.todoFiles s.id = none ∧
      targetExists (deleteSession fs s).2
        (FsPath.sessionFile s.projectID s.id) = false ∧
      (deleteSession fs s).1.filesDeleted = (messageIDs fs s.id).length + 4 := by
  have hd := deleteSession_noFail fs s h
  exact ⟨rfl, hd.2.1, hd.2.2.1, hd.2.2.2.1, hd.2.2.2.2.1, hd.2.2.2.2.2, hd.1⟩

/-- C2 witness: the amended claim instantiated on the populated fixture. -/
theorem c2_witness :
    (deleteSession fsW siW).1.success = true ∧
      (deleteSession fsW siW).2.messageDirs siW.id = none ∧
      (∀ mid ∈ messageIDs fsW siW.id,
        (deleteSession fsW siW).2.partDirs mid = none) ∧
      (deleteSession fsW siW).2.diffFiles siW.id = none ∧
      (deleteSession fsW siW).2.todoFiles siW.id = none ∧
      targetExists (deleteSession fsW siW).2
        (FsPath.sessionFile siW.projectID siW.id) = false ∧
      (deleteSession fsW siW).1.filesDeleted
        = (messageIDs fsW siW.id).length + 4 :=
  c2_deletion_completeness fsW siW (fun _ => rfl)

/-- C3 counterexample: on `fsC3` the part directory `m1` exists and its
removal throws, yet `deleteSession` still reports `success = true`, no
`error`, and `bytesFreed = sizeBytes = 10` — and the later steps still run
(the message directory is removed) — refuting "aborts the remaining steps
... surfaced as a string error field with success=false, bytesFreed 0". -/
theorem c3_counterexample :
    targetExists fsC3 (FsPath.partDir "m1") = true ∧
      fsC3.rmFails (FsPath.partDir "m1") = true ∧
      (deleteSession fsC3 sessC3).1.success = true ∧
      (deleteSession fsC3 sessC3).1.error = none ∧
      (deleteSession fsC3 sessC3).1.bytesFreed = 10 ∧
      (deleteSession fsC3 sessC3).2.partDirs "m1" = some 7 ∧
      (deleteSession fsC3 sessC3).2.messageDirs "s1" = none := by
  decide

/-- C3 (amended): an I/O failure during a deletion step is swallowed by the
best-effort remove: `deleteSession` always returns `success = true` with no
`error` field and `bytesFreed = sizeBytes`, the failing step merely leaves
its target in place and is not counted in `filesDeleted`, the remaining
steps still execute (a failure-free todo target is removed no matter what
happened before), and sibling sessions in a `deleteSessions` batch are all
still processed, one successful result each. -/
theorem c3_error_swallowed (fs : FS) (s : SessionInfo) (g : FS)
    (l : List SessionInfo) :
    (deleteSession fs s).1.success = true ∧
      (deleteSession fs s).1.error = none ∧
      (deleteSession fs s).1.bytesFreed = s.sizeBytes ∧
      (fs.rmFails (FsPath.todoFile s.id) = false →
        (deleteSession fs s).2.todoFiles s.id = none) ∧
      ((deleteSessions g l).1.length = l.length ∧
        ∀ r ∈ (deleteSessions g l).1, r.success = true ∧ r.error = none) :=
  ⟨rfl, rfl, rfl, deleteSession_todo_removed fs s, deleteSessions_spec g l⟩

/-- C3 witness: instantiated on `fsC3`, where the part-directory removal
throws: the todo step still executes and the two-session batch yields two
results. -/
theorem c3_witness :
    (deleteSession fsC3 sessC3).1.success = true ∧
      (deleteSession fsC3 sessC3).1.error = none ∧
      (deleteSession fsC3 sessC3).1.bytesFreed = sessC3.sizeBytes ∧
      (deleteSession fsC3 sessC3).2.todoFiles sessC3.id = none ∧
      (deleteSessions fsC3 [sessC3, sessC3]).1.length = 2 := by
  have h := c3_error_swallowed fsC3 sessC3 fsC3 [sessC3, sessC3]
  exact ⟨h.1, h.2.1, h.2.2.1, h.2.2.2.1 (by decide), h.2.2.2.2.1⟩

/-- C6: `cleanupEmptyProject(projectID, worktree)` returns `true` iff the
live count of session files in the project's session directory is zero at
call time; in that case (absent I/O failures) it removes the project record
file, the per-project session directory, the snapshot directory, and
rewrites the frecency log with the worktree-prefixed entries removed; when
any session file remains, it removes nothing, leaves the state untouched and
returns `false`. -/
theorem c6_cleanup_guard (fs : FS) (pid wt : String)
    (h1 : fs.rmFails (FsPath.projectFile pid) = false)
    (h2 : fs.rmFails (FsPath.sessionProjectDir pid) = false)
    (h3 : fs.rmFails (FsPath.snapshotDir pid) = false) :
    ((cleanupEmptyProject fs pid wt).1 = true
        ↔ getProjectSessionCount fs pid = 0) ∧
      (getProjectSessionCount fs pid = 0 →
        targetExists (cleanupEmptyProject fs pid wt).2
            (FsPath.projectFile pid) = false ∧
          targetExists (cleanupEmptyProject fs pid wt).2
            (FsPath.sessionProjectDir pid) = false ∧
          (cleanupEmptyProject fs pid wt).2.snapshotDirs pid = false ∧
          (cleanupEmptyProject fs pid wt).2.frecency
            = (match fs.frecency with
               | none => none
               | some lines => some (lines.filter (frecKeep wt)))) ∧
      (getProjectSessionCount fs pid ≠ 0 →
        cleanupEmptyProject fs pid wt = (false, fs)) := by
  by_cases hz : getProjectSessionCount fs pid = 0
  · have hbeq : (getProjectSessionCount fs pid == 0) = true := by simpa using hz
    have e1 : safeRm fs (FsPath.projectFile pid)
        = (true, rmTarget fs (FsPath.projectFile pid)) := safeRm_noFail _ _ h1
    set k1 : FS := rmTarget fs (FsPath.projectFile pid) with hk1
    have h2' : k1.rmFails (FsPath.sessionProjectDir pid) = false := by
      rw [hk1, rmTarget_rmFails]; exact h2
    have e2 : safeRm k1 (FsPath.sessionProjectDir pid)
        = (true, rmTarget k1 (FsPath.sessionProjectDir pid)) :=
      safeRm_noFail _ _ h2'
    set k2 : FS := rmTarget k1 (FsPath.sessionProjectDir pid) with hk2
    have h3' : k2.rmFails (FsPath.snapshotDir pid) = false := by
      rw [hk2, rmTarget_rmFails, hk1, rmTarget_rmFails]; exact h3
    have e3 : safeRm k2 (FsPath.snapshotDir pid)
        = (true, rmTarget k2 (FsPath.snapshotDir pid)) := safeRm_noFail _ _ h3'
    set k3 : FS := rmTarget k2 (FsPath.snapshotDir pid) with hk3
    have hres : cleanupEmptyProject fs pid wt
        = (true, (cleanFrecencyForDirectory k3 wt).2) := by
      unfold cleanupEmptyProject
      rw [hbeq]
      simp only [if_true]
      rw [e1]
      simp only
      rw [e2]
      simp only
      rw [e3]
    have hk3frec : k3.frecency = fs.frecency := by
      rw [hk3, hk2, hk1]
      rfl
    refine ⟨?_, ?_, ?_⟩
    · rw [hres]
      simp [hz]
    · intro _
      refine ⟨?_, ?_, ?_, ?_⟩
      · rw [hres]
        have hpf : (cleanFrecencyForDirectory k3 wt).2.projectFiles
            = k1.projectFiles := by
          rw [cleanFrecency_projectFiles, hk3, hk2]
          rfl
        have heq : targetExists (cleanFrecencyForDirectory k3 wt).2
            (FsPath.projectFile pid)
            = targetExists k1 (FsPath.projectFile pid) := by
          simp only [targetExists]
          rw [hpf]
        rw [heq, hk1]
        exact targetExists_rm_projectFile fs pid
      · rw [hres]
        have hsd : (cleanFrecencyForDirectory k3 wt).2.sessionDirs
            = k2.sessionDirs := by
          rw [cleanFrecency_sessionDirs, hk3]
          rfl
        have heq : targetExists (cleanFrecencyForDirectory k3 wt).2
            (FsPath.sessionProjectDir pid)
            = targetExists k2 (FsPath.sessionProjectDir pid) := by
          simp only [targetExists]
          rw [hsd]
        rw [heq, hk2]
        exact targetExists_rm_sessionProjectDir k1 pid
      · rw [hres, cleanFrecency_snapshotDirs, hk3]
        simp [rmTarget]
      · rw [hres]
        cases hf : fs.frecency with
        | none =>
          have hk3f : k3.frecency = none := by rw [hk3frec, hf]
          rw [(cleanFrecency_spec k3 wt).1 hk3f, hk3f]
        | some lines =>
          have hk3f : k3.frecency = some lines := by rw [hk3frec, hf]
          rw [((cleanFrecency_spec k3 wt).2 lines hk3f).2]
    · intro hcontra
      exact absurd hz hcontra
  · have hbeq : (getProjectSessionCount fs pid == 0) = false := by
      simpa using hz
    have hres : cleanupEmptyProject fs pid wt = (false, fs) := by
      unfold cleanupEmptyProject
      rw [hbeq]
      simp
    refine ⟨?_, ?_, ?_⟩
    · rw [hres]
      simp only [Prod.fst]
      constructor
      · intro hcontra
        exact absurd hcontra (by simp)
      · intro hcontra
        exact absurd hcontra hz
    · intro hcontra
      exact absurd hcontra hz
    · intro _
      exact hres

/-- C6 witness: on the fixture, project `p2` has no session files, so the
cleanup runs and removes its record, directories and snapshot; project `p1`
still has a session file, so the cleanup refuses and changes nothing. -/
theorem c6_witness :
    (cleanupEmptyProject fsW "p2" "/w2").1 = true ∧
      targetExists (cleanupEmptyProject fsW "p2" "/w2").2
        (FsPath.projectFile "p2") = false ∧
      (cleanupEmptyProject fsW "p2" "/w2").2.snapshotDirs "p2" = false ∧
      cleanupEmptyProject fsW "p1" "/w" = (false, fsW) := by
  have h2 := c6_cleanup_guard fsW "p2" "/w2" rfl rfl rfl
  have h1 := c6_cleanup_guard fsW "p1" "/w" rfl rfl rfl
  refine ⟨h2.1.mpr (by decide), (h2.2.1 (by decide)).1,
    (h2.2.1 (by decide)).2.2.1, h1.2.2 (by decide)⟩

/-- C7 counterexample: the frecency log `linesF` contains an empty line,
which fails to parse; the claim demands that every line that fails to parse
be preserved verbatim, but the rewrite drops it (`if (!line) continue`): the
rewritten log keeps only the `/c` line. -/
theorem c7_counterexample :
    fsF.frecency = some linesF ∧
      (⟨"", none⟩ : FrecLine) ∈ linesF ∧
      (⟨"", none⟩ : FrecLine).entry = none ∧
      (cleanFrecencyForDirectory fsF "/a").1 = 0 ∧
      (cleanFrecencyForDirectory fsF "/a").2.frecency
        = some [⟨"lineC", some ⟨"/c", 2, 0⟩⟩] := by
  decide

/-- C7 (amended): `cleanFrecencyForDirectory(prefix)` rewrites the frecency
log keeping exactly the non-empty lines whose parsed entry's path does not
start with the prefix (lines that fail to parse are preserved verbatim, but
empty lines are silently dropped), and returns the number of non-empty
parsed lines whose path matched; if the log file does not exist it returns
`0` without creating the file. -/
theorem c7_frecency_rewrite (fs : FS) (dir : String) :
    (fs.frecency = none → cleanFrecencyForDirectory fs dir = (0, fs)) ∧
      (∀ lines, fs.frecency = some lines →
        (cleanFrecencyForDirectory fs dir).1
            = lines.countP (frecRemoved dir) ∧
          (cleanFrecencyForDirectory fs dir).2.frecency
            = some (lines.filter (frecKeep dir))) := by
  have h := cleanFrecency_spec fs dir
  refine ⟨h.1, fun lines hl => ⟨(h.2 lines hl).1, ?_⟩⟩
  rw [(h.2 lines hl).2]

/-- C7 witness: the spec's two-line scenario — paths `/a/b` and `/c`,
rewritten with prefix `/a` — keeps only the `/c` line and reports one
removal; on the missing-log fixture the call returns `0` and leaves the
state untouched. -/
theorem c7_witness :
    (cleanFrecencyForDirectory fsG "/a").1 = 1 ∧
      (cleanFrecencyForDirectory fsG "/a").2.frecency
        = some [⟨"lineC", some ⟨"/c", 2, 0⟩⟩] ∧
      cleanFrecencyForDirectory fsE "/a" = (0, fsE) := by
  have hg := (c7_frecency_rewrite fsG "/a").2 linesG (by decide)
  refine ⟨?_, ?_, (c7_frecency_rewrite fsE "/a").1 (by decide)⟩
  · rw [hg.1]
    decide
  · rw [hg.2]
    decide

/-- C9 counterexample: `fsL` holds a `.log` file whose name does not match
the timestamp pattern, so `loadLogs` falls back to the clock value of the
call; two loads at different clock values yield different snapshots even
though the filesystem did not change — refuting idempotence as stated. -/
theorem c9_counterexample :
    jsEndsWith "badname.log" ".log" = true ∧
      logNamePattern "badname.log".data = none ∧
      loadAllData fsL 0 ≠ loadAllData fsL 1 := by
  decide

/-- C9 (amended): the sessions and projects components of the snapshot never
depend on the clock, so they are identical across two loads of an unchanged
filesystem; the full snapshot (logs included) is identical provided every
`.log` filename matches the timestamp pattern, since each date is then
derived from the filename alone. -/
theorem c9_load_deterministic (fs : FS) (n1 n2 : Nat) :
    (loadAllData fs n1).sessions = (loadAllData fs n2).sessions ∧
      (loadAllData fs n1).projects = (loadAllData fs n2).projects ∧
      ((∀ f ∈ fs.logFiles, jsEndsWith f.name ".log" = true →
          (logNamePattern f.name.data).isSome = true) →
        loadAllData fs n1 = loadAllData fs n2) := by
  refine ⟨rfl, rfl, ?_⟩
  intro h
  have hlogs : loadLogs fs n1 = loadLogs fs n2 := by
    unfold loadLogs
    congr 1
    apply List.map_congr_left
    intro f hf
    have hmem := List.mem_filter.mp hf
    have hpat := h f hmem.1 hmem.2
    rcases Option.isSome_iff_exists.mp hpat with ⟨v, hv⟩
    simp [parseLogDate, hv]
  unfold loadAllData
  rw [hlogs]

/-- C9 witness: on a filesystem whose only log name matches the pattern,
loads at two different clock values agree. -/
theorem c9_witness : loadAllData fsM 0 = loadAllData fsM 1 :=
  (c9_load_deterministic fsM 0 1).2.2 (by decide)

/-- C10: for every `LogFile` whose path no longer exists on disk at call
time, `deleteLog` returns `success = true` and reports `bytesFreed` equal to
the `sizeBytes` recorded at load time, even though nothing is removed (the
forced `rm` treats absence as success and the log directory is unchanged). -/
theorem c10_delete_missing_log (fs : FS) (log : LogFile)
    (h : targetExists fs (FsPath.logFile log.path) = false) :
    (deleteLog fs log).1.success = true ∧
      (deleteLog fs log).1.bytesFreed = log.sizeBytes ∧
      (deleteLog fs log).2.logFiles = fs.logFiles := by
  have hcond : ¬((targetExists fs (FsPath.logFile log.path)
      && fs.rmFails (FsPath.logFile log.path)) = true) := by
    simp [h]
  have hkeep : ∀ f ∈ fs.logFiles, (!(f.name == log.path)) = true := by
    intro f hf
    have := List.any_eq_false.mp h f hf
    simpa using this
  unfold deleteLog
  rw [if_neg hcond]
  refine ⟨rfl, rfl, ?_⟩
  simp only [rmTarget]
  exact List.filter_eq_self.mpr hkeep

/-- C10 witness: deleting the never-loaded log `gone.log` on the fixture
reports success and its recorded 42 bytes while leaving the log directory
unchanged. -/
theorem c10_witness :
    (deleteLog fsW logGone).1.success = true ∧
      (deleteLog fsW logGone).1.bytesFreed = logGone.sizeBytes ∧
      (deleteLog fsW logGone).2.logFiles = fsW.logFiles :=
  c10_delete_missing_log fsW logGone (by decide)

end OCS
